import Mathlib

/-!
Verification development for the tsickle translation core.

The definitions below are shallow embeddings of the TypeScript sources:
  * `Decorators.*`  embeds `decorator-annotator.ts` (DecoratorClassVisitor and
    the class-content emission driver);
  * `Pipeline0.*`   embeds the older the `toClosureJS` coordinator of `main.ts`;
  * `DevMode.*`     embeds `toClosureJSDevMode` from the current `main.ts`;
  * `HostUtil.*`    embeds `createSourceReplacingCompilerHost.getSourceFile`;
  * `FinalizeMain.*` embeds the `@suppress`-prefixing step of `main`;
  * `TypeTrans.*`   models the cycle handling of the type translator from the spec
    (the translator itself is not among the provided sources).

Rewriter emission is modelled as the list of chunks passed to `emit` /
`writeRange`, in order; the final output is the concatenation of the chunks.
-/

namespace Decorators

/-- Naive check that the pattern list occurs at the head of the subject list. -/
def listStartsWith : List Char → List Char → Bool
  | [], _ => true
  | _ :: _, [] => false
  | p :: ps, c :: cs => p == c && listStartsWith ps cs

/-- Naive substring search over char lists. -/
def listContainsSub (pat : List Char) : List Char → Bool
  | [] => pat.isEmpty
  | c :: cs => listStartsWith pat (c :: cs) || listContainsSub pat cs

/-- Embedding of JavaScript `s.includes(pat)`. -/
def strContains (s pat : String) : Bool :=
  listContainsSub pat.toList s.toList

/-- The marker token searched for in decorator declaration comments. -/
def annotationMarker : String := "@Annotation"

/-- The syntactic form of a decorator expression (`decorator.expression`):
a plain identifier `@Foo`, a call `@Foo(a, b)` (callee text and the verbatim
texts of its arguments), or any other expression kind. -/
inductive DecExpr where
  | identE (text : String)
  | callE (calleeText : String) (argTexts : List String)
  | otherE
deriving Repr, DecidableEq

/-- A decorator occurrence.  `declComments` are the leading comment texts of
the declarations the decorator resolves to (`getDecoratorDeclarations`,
after the parent-hopping in `shouldLower` picks the comment-bearing node);
`ws` is the source text in `[getFullStart, getStart)` (the whitespace before
the decorator) and `text` the source text in `[getStart, getEnd)`. -/
structure Decorator where
  declComments : List String
  expr : DecExpr
  ws : String
  text : String
deriving Repr, DecidableEq

/-- Embedding of `DecoratorClassVisitor.shouldLower`: the decorator is lowered
iff some resolved declaration has a leading comment containing `@Annotation`. -/
def shouldLower (d : Decorator) : Bool :=
  d.declComments.any (fun c => strContains c annotationMarker)

/-- Embedding of `DecoratorClassVisitor.decoratorsToLower`: filter the node
decorators (an absent decorator array yields `[]`). -/
def decoratorsToLower (decs : Option (List Decorator)) : List Decorator :=
  match decs with
  | some ds => ds.filter shouldLower
  | none => []

/-- A class member name: a plain identifier or anything else (e.g. a computed
name such as `[Symbol.foo]`). -/
inductive MemberName where
  | identName (s : String)
  | computedName
deriving Repr, DecidableEq

/-- A class method/property/accessor as seen by `gatherMethodOrProperty`:
its (possibly absent) name and its (possibly absent) decorator array. -/
structure Member where
  name : Option MemberName
  decs : Option (List Decorator)
deriving Repr, DecidableEq

/-- The constructor-type reference captured for a parameter: the identifier
text found by `getValueIdentifierForType` when one exists, and the
`TypeTranslator.symbolToString` fallback text. -/
structure CtorRef where
  valueIdent : Option String
  typeStr : String
deriving Repr, DecidableEq

/-- A constructor parameter: its (possibly absent) decorator array, and the
captured type reference (`some` exactly when the parameter has a type whose
symbol is a value, mirroring the `sym.flags & SymbolFlags.Value` test). -/
structure Param where
  decs : Option (List Decorator)
  paramCtor : Option CtorRef
deriving Repr, DecidableEq

/-- A class body element in source order, as dispatched by
`beforeProcessNode`: a constructor, a method/property/accessor, or any
other node kind. -/
inductive ClassElement where
  | ctorElem (params : List Param)
  | memberElem (m : Member)
  | otherElem
deriving Repr, DecidableEq

/-- One entry of `ctorParameters`: `none` is the emitted `null`, otherwise
the pair of captured type reference and captured decorator array. -/
def CtorEntry := Option (Option CtorRef × Option (List Decorator))
deriving instance Repr, DecidableEq for CtorEntry

/-- The mutable fields of `DecoratorClassVisitor` filled in while the class
body is traversed.  `propDecorators` is the insertion-ordered map; an unset
(`undefined`) map is represented by the empty list, which is faithful since
entries are only ever added.  `diagCount` counts `rewriter.error` calls. -/
structure GatherState where
  decorators : Option (List Decorator)
  ctorParameters : Option (List CtorEntry)
  propDecorators : List (String × List Decorator)
  diagCount : Nat
deriving Repr, DecidableEq

/-- Embedding of the `DecoratorClassVisitor` constructor: `decorators` is set
iff the class has a decorator array whose lowerable subset is non-empty. -/
def initDecorators (classDecs : Option (List Decorator)) : Option (List Decorator) :=
  match classDecs with
  | some ds =>
      let toLower := ds.filter shouldLower
      if toLower.length > 0 then some toLower else none
  | none => none

/-- The visitor state before any class element is processed. -/
def initState (classDecs : Option (List Decorator)) : GatherState :=
  { decorators := initDecorators classDecs
    ctorParameters := none
    propDecorators := []
    diagCount := 0 }

/-- One iteration of the parameter loop in `gatherConstructor`.  Note the
faithful overwrite `hasDecoratedParam = decorators.length > 0` whenever the
parameter has a decorator array: the flag is not accumulated with `||`. -/
def gatherParamStep (acc : List CtorEntry × Bool) (p : Param) : List CtorEntry × Bool :=
  let decorators : Option (List Decorator) :=
    match p.decs with
    | some ds => some (ds.filter shouldLower)
    | none => none
  let hasDecoratedParam : Bool :=
    match p.decs with
    | some ds => decide (0 < (ds.filter shouldLower).length)
    | none => acc.2
  let entry : CtorEntry :=
    if p.paramCtor.isSome || decorators.isSome then some (p.paramCtor, decorators) else none
  (acc.1 ++ [entry], hasDecoratedParam)

/-- Embedding of `gatherConstructor`: collect the entry list, and store it in
`ctorParameters` only if the class is decorated or the final value of
`hasDecoratedParam` is true. -/
def gatherConstructor (st : GatherState) (params : List Param) : GatherState :=
  let acc := params.foldl gatherParamStep ([], false)
  if st.decorators.isSome || acc.2 then { st with ctorParameters := some acc.1 } else st

/-- Insertion-ordered `Map.set`: overwrite an existing key in place, else
append. -/
def mapSet (m : List (String × List Decorator)) (k : String) (v : List Decorator) :
    List (String × List Decorator) :=
  if m.any (fun p => p.1 == k) then
    m.map (fun p => if p.1 == k then (k, v) else p)
  else m ++ [(k, v)]

/-- Embedding of `gatherMethodOrProperty`: no decorators means no action; a
missing or non-identifier name records a diagnostic and skips the member;
otherwise the lowerable decorators (when any) are recorded under the name. -/
def gatherMethodOrProperty (st : GatherState) (m : Member) : GatherState :=
  match m.decs with
  | none => st
  | some _ =>
    match m.name with
    | some (MemberName.identName n) =>
        let ds := decoratorsToLower m.decs
        if ds.length == 0 then st
        else { st with propDecorators := mapSet st.propDecorators n ds }
    | _ => { st with diagCount := st.diagCount + 1 }

/-- Embedding of `beforeProcessNode` restricted to the kinds it dispatches. -/
def beforeProcessElement (st : GatherState) : ClassElement → GatherState
  | ClassElement.ctorElem params => gatherConstructor st params
  | ClassElement.memberElem m => gatherMethodOrProperty st m
  | ClassElement.otherElem => st

/-- The visitor state after the whole class body has been traversed. -/
def gatherClass (classDecs : Option (List Decorator)) (elements : List ClassElement) :
    GatherState :=
  elements.foldl beforeProcessElement (initState classDecs)

/-- The type annotation string used by `emitMetadataAsStaticProperties`
(`decoratorInvocations` in the source). -/
def decoratorInvocations : String := "\x7btype: Function, args?: any[]\x7d[]"

/-- Embedding of `emitDecorator`: the chunk sequence emitted for one lowered
decorator.  A call with zero arguments emits no `args` entry; the unsupported
expression kind emits `undefined` (and records a diagnostic, accounted for
separately). -/
def emitDecorator (d : Decorator) : List String :=
  ["\x7b type: "] ++
  (match d.expr with
   | DecExpr.identE t => [t]
   | DecExpr.callE callee args =>
       [callee] ++
       (if args.length > 0 then
          [", args: ["] ++ args.flatMap (fun a => [a, ", "]) ++ ["]"]
        else [])
   | DecExpr.otherE => ["undefined"]) ++
  [" \x7d"]

/-- The `static decorators` field chunks (first block of
`emitMetadataAsStaticProperties`). -/
def decoratorsFieldChunks (st : GatherState) : List String :=
  match st.decorators with
  | none => []
  | some ds =>
      ["static decorators: " ++ decoratorInvocations ++ " = [\n"] ++
      ds.flatMap (fun d => emitDecorator d ++ [",\n"]) ++
      ["];\n"]

/-- The chunks emitted for a single `ctorParameters` entry. -/
def emitCtorEntry (e : CtorEntry) : List String :=
  match e with
  | none => ["null,\n"]
  | some (ctor, decorators) =>
      ["\x7btype: "] ++
      (match ctor with
       | none => ["undefined"]
       | some cr =>
         match cr.valueIdent with
         | some idText => [idText]
         | none => [cr.typeStr]) ++
      [", "] ++
      (match decorators with
       | none => []
       | some ds => ["decorators: ["] ++ ds.flatMap (fun d => emitDecorator d ++ [", "]) ++ ["]"]) ++
      ["\x7d,\n"]

/-- The `static ctorParameters` field chunks (second block of
`emitMetadataAsStaticProperties`); emitted when the class is decorated or the
constructor parameters were gathered. -/
def ctorParametersFieldChunks (st : GatherState) : List String :=
  if st.decorators.isSome || st.ctorParameters.isSome then
    ["/** @nocollapse */\n",
     "static ctorParameters: () => (\x7btype: any, decorators?: " ++ decoratorInvocations ++
       "\x7d|null)[] = () => [\n"] ++
    (st.ctorParameters.getD []).flatMap emitCtorEntry ++
    ["];\n"]
  else []

/-- The `static propDecorators` field chunks (third block of
`emitMetadataAsStaticProperties`). -/
def propDecoratorsFieldChunks (st : GatherState) : List String :=
  if st.propDecorators.isEmpty then []
  else
    ["static propDecorators: \x7b[key: string]: " ++ decoratorInvocations ++ "\x7d = \x7b\n"] ++
    st.propDecorators.flatMap
      (fun p => ["\"" ++ p.1 ++ "\": ["] ++
                p.2.flatMap (fun d => emitDecorator d ++ [","]) ++
                ["],\n"]) ++
    ["\x7d;\n"]

/-- Embedding of `emitMetadataAsStaticProperties`: the three optional blocks
in order. -/
def metadataChunks (st : GatherState) : List String :=
  decoratorsFieldChunks st ++ ctorParametersFieldChunks st ++ propDecoratorsFieldChunks st

/-- A slice of the class body between `getStart()` and `getEnd() - 1`: either
verbatim text owned by no decorator, or a decorator occurrence. -/
inductive ClassPiece where
  | textP (s : String)
  | decP (d : Decorator)
deriving Repr, DecidableEq

/-- Emission of one class-body slice.  A decorator that `shouldLower`
accepts is handled by `maybeProcessDecorator`: only the whitespace in
`[getFullStart, getStart)` is written and the decorator text is dropped;
any other slice is copied verbatim. -/
def emitPiece (p : ClassPiece) : List String :=
  match p with
  | ClassPiece.textP s => [s]
  | ClassPiece.decP d => if shouldLower d then [d.ws] else [d.ws, d.text]

/-- A class declaration as consumed by `DecoratorRewriter.maybeProcess` and
`visitClassContentIncludingDecorators`: its decorator array, its body
elements (for gathering), the leading trivia in `[getFullStart, getStart)`,
the body slices in `[getStart, getEnd - 1)` (for emission), and whether the
last character of the node text is a closing brace. -/
structure ClassDecl where
  decs : Option (List Decorator)
  elements : List ClassElement
  leadingTrivia : String
  pieces : List ClassPiece
  endsWithBrace : Bool
deriving Repr, DecidableEq

/-- Embedding of `maybeProcess` (ClassDeclaration case) followed by
`visitClassContentIncludingDecorators`: leading trivia, then the body with
lowered decorators suppressed, then the metadata block, then the closing
brace.  When the class node does not end in a brace an error is recorded and
nothing further is written. -/
def classOutputChunks (c : ClassDecl) : List String :=
  [c.leadingTrivia] ++
  (if c.endsWithBrace then
     c.pieces.flatMap emitPiece ++ metadataChunks (gatherClass c.decs c.elements) ++ ["\x7d"]
   else [])

/-- The class receives a (non-empty) decorator-metadata block. -/
def emitsMetadataB (c : ClassDecl) : Bool :=
  !(metadataChunks (gatherClass c.decs c.elements)).isEmpty

/-- At least one class-level decorator is lowerable. -/
def classMarkedB (c : ClassDecl) : Bool :=
  (initDecorators c.decs).isSome

/-- The final value of the `hasDecoratedParam` flag: whether the last
parameter carrying a decorator array has at least one lowerable decorator. -/
def lastDecoratedParamB (ps : List Param) : Bool :=
  ps.foldl
    (fun acc p =>
      match p.decs with
      | some ds => decide (0 < (ds.filter shouldLower).length)
      | none => acc)
    false

/-- The member contributes a `propDecorators` entry: it has a plain
identifier name and at least one lowerable decorator. -/
def memberMarkedB (m : Member) : Bool :=
  match m.name with
  | some (MemberName.identName _) => decide (0 < (decoratorsToLower m.decs).length)
  | _ => false

/-- The element makes the gathered metadata non-trivial on its own. -/
def elemMarkedB : ClassElement → Bool
  | ClassElement.ctorElem ps => lastDecoratedParamB ps
  | ClassElement.memberElem m => memberMarkedB m
  | ClassElement.otherElem => false

/-- The predicate stated by the specification (for comparison): at least one
class-level, constructor-parameter, or member decorator resolves to an
`@Annotation`-marked declaration. -/
def specAnyMarkedB (c : ClassDecl) : Bool :=
  (c.decs.getD []).any shouldLower ||
  c.elements.any
    (fun e =>
      match e with
      | ClassElement.ctorElem ps => ps.any (fun p => (p.decs.getD []).any shouldLower)
      | ClassElement.memberElem m => (m.decs.getD []).any shouldLower
      | ClassElement.otherElem => false)

theorem mapSet_isEmpty (m : List (String × List Decorator)) (k : String)
    (v : List Decorator) : (mapSet m k v).isEmpty = false := by
  unfold mapSet
  cases m with
  | nil => simp
  | cons hd tl =>
    by_cases h : ((hd :: tl).any fun p => p.1 == k) = true
    · simp [h]
    · simp [h]

theorem gatherParamStep_snd (ps : List Param) (l : List CtorEntry) (b : Bool) :
    (ps.foldl gatherParamStep (l, b)).2 =
      ps.foldl
        (fun acc p =>
          match p.decs with
          | some ds => decide (0 < (ds.filter shouldLower).length)
          | none => acc) b := by
  induction ps generalizing l b with
  | nil => rfl
  | cons p rest ih =>
    simp only [List.foldl_cons]
    rw [show gatherParamStep (l, b) p =
      ((gatherParamStep (l, b) p).1, (gatherParamStep (l, b) p).2) from rfl]
    cases hp : p.decs with
    | none => simpa [gatherParamStep, hp] using ih _ _
    | some ds => simpa [gatherParamStep, hp] using ih _ _

theorem step_decorators (st : GatherState) (e : ClassElement) :
    (beforeProcessElement st e).decorators = st.decorators := by
  cases e with
  | ctorElem ps =>
    simp only [beforeProcessElement, gatherConstructor]
    split <;> rfl
  | memberElem m =>
    simp only [beforeProcessElement, gatherMethodOrProperty]
    cases m.decs with
    | none => rfl
    | some ds =>
      cases hn : m.name with
      | none => rfl
      | some nm =>
        cases nm with
        | identName s => simp only; split <;> rfl
        | computedName => rfl
  | otherElem => rfl

theorem step_ctorParameters (st : GatherState) (e : ClassElement) :
    (beforeProcessElement st e).ctorParameters.isSome =
      (st.ctorParameters.isSome ||
        (match e with
         | ClassElement.ctorElem ps => st.decorators.isSome || lastDecoratedParamB ps
         | _ => false)) := by
  cases e with
  | ctorElem ps =>
    simp only [beforeProcessElement, gatherConstructor]
    have hsnd := gatherParamStep_snd ps [] false
    split
    · rename_i h
      rw [hsnd] at h
      simp only [lastDecoratedParamB]
      simp [h]
    · rename_i h
      rw [hsnd] at h
      simp only [lastDecoratedParamB]
      simp only [Bool.or_eq_true] at h
      push_neg at h
      simp [h.1, h.2]
  | memberElem m =>
    simp only [beforeProcessElement, gatherMethodOrProperty]
    cases m.decs with
    | none => simp
    | some ds =>
      cases hn : m.name with
      | none => simp
      | some nm =>
        cases nm with
        | identName s => simp only; split <;> simp
        | computedName => simp
  | otherElem => simp [beforeProcessElement]

theorem step_propDecorators (st : GatherState) (e : ClassElement) :
    (beforeProcessElement st e).propDecorators.isEmpty =
      (st.propDecorators.isEmpty &&
        !(match e with
          | ClassElement.memberElem m => memberMarkedB m
          | _ => false)) := by
  cases e with
  | ctorElem ps =>
    simp only [beforeProcessElement, gatherConstructor]
    split <;> simp
  | memberElem m =>
    simp only [beforeProcessElement, gatherMethodOrProperty, memberMarkedB]
    cases hd : m.decs with
    | none =>
      cases hn : m.name with
      | none => simp
      | some nm =>
        cases nm with
        | identName s => simp [decoratorsToLower, hd]
        | computedName => simp
    | some ds =>
      cases hn : m.name with
      | none => simp
      | some nm =>
        cases nm with
        | identName s =>
          simp only
          split
          · rename_i h
            simp only [decoratorsToLower, hd] at h ⊢
            simp only [beq_iff_eq] at h
            simp [h]
          · rename_i h
            simp only [decoratorsToLower, hd] at h ⊢
            simp only [beq_iff_eq] at h
            have hpos : 0 < (ds.filter shouldLower).length := Nat.pos_of_ne_zero h
            simp [mapSet_isEmpty, hpos]
        | computedName => simp
  | otherElem => simp [beforeProcessElement]

theorem foldl_gather_char (es : List ClassElement) (st : GatherState) :
    (es.foldl beforeProcessElement st).decorators = st.decorators ∧
    (es.foldl beforeProcessElement st).ctorParameters.isSome =
      (st.ctorParameters.isSome ||
        es.any (fun e =>
          match e with
          | ClassElement.ctorElem ps => st.decorators.isSome || lastDecoratedParamB ps
          | _ => false)) ∧
    (es.foldl beforeProcessElement st).propDecorators.isEmpty =
      (st.propDecorators.isEmpty &&
        !(es.any (fun e =>
          match e with
          | ClassElement.memberElem m => memberMarkedB m
          | _ => false))) := by
  induction es generalizing st with
  | nil => simp
  | cons e rest ih =>
    obtain ⟨ih1, ih2, ih3⟩ := ih (beforeProcessElement st e)
    refine ⟨?_, ?_, ?_⟩
    · rw [List.foldl_cons, ih1, step_decorators]
    · rw [List.foldl_cons, ih2]
      simp only [step_decorators, step_ctorParameters]
      simp [List.any_cons, Bool.or_assoc]
    · rw [List.foldl_cons, ih3]
      simp only [step_decorators, step_propDecorators]
      simp [List.any_cons, Bool.and_assoc]

theorem metadataChunks_isEmpty (st : GatherState) :
    (metadataChunks st).isEmpty =
      (!st.decorators.isSome && !st.ctorParameters.isSome && st.propDecorators.isEmpty) := by
  unfold metadataChunks decoratorsFieldChunks ctorParametersFieldChunks propDecoratorsFieldChunks
  cases hd : st.decorators with
  | some ds => simp [hd]
  | none =>
    cases hc : st.ctorParameters with
    | some l => simp [hd, hc]
    | none =>
      cases hp : st.propDecorators with
      | nil => simp [hd, hc, hp]
      | cons a b => simp [hd, hc, hp]

/-- Claim C1, amended.  The decorator downleveler emits a metadata block for a
class iff at least one class-level decorator is `@Annotation`-marked, or the
last constructor parameter that carries decorators has an `@Annotation`-marked
one, or an identifier-named member carries an `@Annotation`-marked decorator.
(The original claim — any marked constructor-parameter or member decorator
suffices — fails: `gatherConstructor` overwrites its `hasDecoratedParam` flag
per parameter, and computed-name members are skipped.) -/
theorem any_match_split (l : List ClassElement) :
    (l.any (fun e =>
        match e with
        | ClassElement.ctorElem ps => lastDecoratedParamB ps
        | _ => false) ||
      l.any (fun e =>
        match e with
        | ClassElement.memberElem m => memberMarkedB m
        | _ => false))
      = l.any elemMarkedB := by
  induction l with
  | nil => rfl
  | cons e rest ih =>
    simp only [List.any_cons, ← ih]
    cases e <;> simp [elemMarkedB, Bool.or_assoc, Bool.or_comm, Bool.or_left_comm]

theorem claim1_metadata_iff_amended (c : ClassDecl) :
    emitsMetadataB c = (classMarkedB c || c.elements.any elemMarkedB) := by
  obtain ⟨h1, h2, h3⟩ := foldl_gather_char c.elements (initState c.decs)
  unfold emitsMetadataB gatherClass
  rw [metadataChunks_isEmpty]
  simp only [initState] at h1 h2 h3 ⊢
  rw [h1, h2, h3]
  simp only [Option.isSome_none, Bool.false_or, List.isEmpty_nil, Bool.true_and,
    Bool.not_and, Bool.not_not, classMarkedB]
  cases hA : (initDecorators c.decs).isSome with
  | true => simp [hA]
  | false =>
    simp only [hA, Bool.false_or]
    exact any_match_split c.elements

/-- A decorator whose resolved declaration carries the `@Annotation` marker. -/
def dMarked : Decorator :=
  { declComments := ["/** @Annotation */"]
    expr := DecExpr.identE ("Foo")
    ws := "\n  "
    text := "@Foo" }

/-- A decorator whose resolved declaration has no `@Annotation` marker. -/
def dUnmarked : Decorator :=
  { declComments := ["// a runtime decorator"]
    expr := DecExpr.identE ("Bar")
    ws := " "
    text := "@Bar" }

/-- An undecorated class whose constructor has an `@Annotation`-marked
decorator on its first parameter and only an unmarked decorator on its
second parameter. -/
def cexClassC1 : ClassDecl :=
  { decs := none
    elements := [ClassElement.ctorElem
      [{ decs := some [dMarked], paramCtor := none },
       { decs := some [dUnmarked], paramCtor := none }]]
    leadingTrivia := ""
    pieces := []
    endsWithBrace := true }

/-- Claim C1, counterexample: `cexClassC1` has a constructor-parameter
decorator that resolves to an `@Annotation`-marked declaration, yet no
metadata block is emitted — `gatherConstructor` overwrites
`hasDecoratedParam` when it reaches the second (unmarked) parameter. -/
theorem claim1_counterexample :
    specAnyMarkedB cexClassC1 = true ∧ emitsMetadataB cexClassC1 = false := by
  decide

/-- A class with exactly one `@Annotation`-marked class-level decorator next
to an unmarked one. -/
def cexClassC2 : ClassDecl :=
  { decs := some [dMarked, dUnmarked]
    elements := []
    leadingTrivia := "\n"
    pieces := []
    endsWithBrace := true }

theorem initDecorators_of_marked (o : Option (List Decorator))
    (h : (initDecorators o).isSome = true) :
    initDecorators o = some (decoratorsToLower o) := by
  cases o with
  | none => simp [initDecorators] at h
  | some ds =>
    by_cases hl : (ds.filter shouldLower).length > 0
    · simp [initDecorators, decoratorsToLower, hl]
    · simp [initDecorators, hl] at h

/-- Claim C2: for a class with at least one `@Annotation`-marked class-level
decorator, the metadata block opens with the `static decorators` field, whose
entries are exactly one `emitDecorator` rendering per lowered class-level
decorator (in order), so the entry count equals the number of lowered
class-level decorators. -/
theorem claim2_static_decorators (c : ClassDecl) (h : classMarkedB c = true) :
    ∃ rest,
      metadataChunks (gatherClass c.decs c.elements) =
        ("static decorators: " ++ decoratorInvocations ++ " = [\n") ::
          ((decoratorsToLower c.decs).flatMap (fun d => emitDecorator d ++ [",\n"]) ++
            ["];\n"] ++ rest) := by
  obtain ⟨h1, -, -⟩ := foldl_gather_char c.elements (initState c.decs)
  have hd : (c.elements.foldl beforeProcessElement (initState c.decs)).decorators =
      some (decoratorsToLower c.decs) := by
    rw [h1]
    exact initDecorators_of_marked _ h
  refine ⟨ctorParametersFieldChunks (gatherClass c.decs c.elements) ++
    propDecoratorsFieldChunks (gatherClass c.decs c.elements), ?_⟩
  unfold metadataChunks
  rw [show decoratorsFieldChunks (gatherClass c.decs c.elements) =
      ("static decorators: " ++ decoratorInvocations ++ " = [\n") ::
        ((decoratorsToLower c.decs).flatMap (fun d => emitDecorator d ++ [",\n"]) ++ ["];\n"])
    from by
      unfold decoratorsFieldChunks gatherClass
      rw [hd]
      simp]
  simp

/-- Claim C2, witness at `cexClassC2`. -/
theorem claim2_witness :
    ∃ rest,
      metadataChunks (gatherClass cexClassC2.decs cexClassC2.elements) =
        ("static decorators: " ++ decoratorInvocations ++ " = [\n") ::
          ((decoratorsToLower cexClassC2.decs).flatMap
              (fun d => emitDecorator d ++ [",\n"]) ++
            ["];\n"] ++ rest) :=
  claim2_static_decorators cexClassC2 (by decide)

/-- Claim C5, amended.  A decorated member whose name is not a plain
identifier makes the visitor record a diagnostic and add no `propDecorators`
entry (and the embedding is a total function, so nothing is thrown); however
the lowerable decorators of the member are still suppressed from the output by
`maybeProcessDecorator` — only their leading whitespace survives — rather
than being left untransformed as the original claim states. -/
theorem claim5_computed_name_amended (st : GatherState) (m : Member)
    (ds : List Decorator) (h1 : m.decs = some ds)
    (h2 : m.name = some MemberName.computedName) :
    gatherMethodOrProperty st m = { st with diagCount := st.diagCount + 1 } ∧
    ∀ d ∈ ds, shouldLower d = true → emitPiece (ClassPiece.decP d) = [d.ws] := by
  constructor
  · unfold gatherMethodOrProperty
    rw [h1, h2]
  · intro d _ hlow
    simp [emitPiece, hlow]

/-- A computed-name method carrying one `@Annotation`-marked decorator. -/
def cexMemberC5 : Member :=
  { name := some MemberName.computedName
    decs := some [dMarked] }

/-- Claim C5, witness: the amended statement applied at `cexMemberC5`. -/
theorem claim5_witness :
    gatherMethodOrProperty (initState none) cexMemberC5 =
      { initState none with diagCount := (initState none).diagCount + 1 } ∧
    ∀ d ∈ [dMarked], shouldLower d = true → emitPiece (ClassPiece.decP d) = [d.ws] :=
  claim5_computed_name_amended (initState none) cexMemberC5 [dMarked] rfl rfl

/-- Claim C5, counterexample to the original claim: for the computed-name
member `cexMemberC5`, the marked decorator is lowerable and a diagnostic is
recorded, but the decorator is not left untransformed in the output — its
emission is only the preceding whitespace, not whitespace followed by the
decorator text. -/
theorem claim5_counterexample :
    shouldLower dMarked = true ∧
    (gatherMethodOrProperty (initState none) cexMemberC5).diagCount = 1 ∧
    (gatherMethodOrProperty (initState none) cexMemberC5).propDecorators = [] ∧
    emitPiece (ClassPiece.decP dMarked) = [dMarked.ws] ∧
    emitPiece (ClassPiece.decP dMarked) ≠ [dMarked.ws, dMarked.text] := by
  refine ⟨by decide, by decide, by decide, by decide, by decide⟩

/-- Claim C6: a lowered decorator whose expression is a call with zero
arguments is emitted as `{ type: F }` with no `args` entry; a call with one
or more arguments is emitted with an `args` array holding exactly those
argument texts in order. -/
theorem claim6_call_args (d : Decorator) (callee : String) (args : List String)
    (h : d.expr = DecExpr.callE callee args) :
    (args = [] → emitDecorator d = ["\x7b type: ", callee, " \x7d"]) ∧
    (args ≠ [] →
      emitDecorator d =
        ["\x7b type: ", callee, ", args: ["] ++
          args.flatMap (fun a => [a, ", "]) ++ ["]", " \x7d"]) := by
  constructor
  · intro ha
    subst ha
    unfold emitDecorator
    rw [h]
    simp
  · intro ha
    unfold emitDecorator
    rw [h]
    have : args.length > 0 := List.length_pos.mpr ha
    simp [this]

/-- A lowered decorator that is a zero-argument call, and one with two
arguments. -/
def dCallZero : Decorator :=
  { declComments := ["/** @Annotation */"]
    expr := DecExpr.callE ("Injectable") []
    ws := "\n"
    text := "@Injectable()" }

def dCallTwo : Decorator :=
  { declComments := ["/** @Annotation */"]
    expr := DecExpr.callE ("Inject") ["a", "b"]
    ws := " "
    text := "@Inject(a, b)" }

/-- Claim C6, witness at a zero-argument and a two-argument call. -/
theorem claim6_witness :
    emitDecorator dCallZero = ["\x7b type: ", "Injectable", " \x7d"] ∧
    emitDecorator dCallTwo =
      ["\x7b type: ", "Inject", ", args: ["] ++
        ["a", ", ", "b", ", "] ++ ["]", " \x7d"] :=
  ⟨(claim6_call_args dCallZero ("Injectable") [] rfl).1 rfl,
   (claim6_call_args dCallTwo ("Inject") ["a", "b"] rfl).2 (by decide)⟩

/-- Claim C7: for a well-terminated class, the emitted chunks are the leading
trivia, then the body slices — where every lowered decorator contributes only
its preceding whitespace, its own text being suppressed — then the metadata
block, then the closing brace; so the metadata sits immediately before the
closing `\x7d` of the class. -/
theorem claim7_suppression_and_placement (c : ClassDecl)
    (h : c.endsWithBrace = true) :
    classOutputChunks c =
      [c.leadingTrivia] ++ c.pieces.flatMap emitPiece ++
        metadataChunks (gatherClass c.decs c.elements) ++ ["\x7d"] ∧
    ∀ d, shouldLower d = true → emitPiece (ClassPiece.decP d) = [d.ws] := by
  constructor
  · unfold classOutputChunks
    rw [h]
    simp
  · intro d hlow
    simp [emitPiece, hlow]

/-- A small decorated class used as the C7 witness: one lowered class-level
decorator followed by the class header and an empty body. -/
def cexClassC7 : ClassDecl :=
  { decs := some [dCallZero]
    elements := []
    leadingTrivia := "\n"
    pieces := [ClassPiece.decP dCallZero, ClassPiece.textP ("class X \x7b")]
    endsWithBrace := true }

/-- Claim C7, witness at `cexClassC7`. -/
theorem claim7_witness :
    classOutputChunks cexClassC7 =
      [cexClassC7.leadingTrivia] ++ cexClassC7.pieces.flatMap emitPiece ++
        metadataChunks (gatherClass cexClassC7.decs cexClassC7.elements) ++ ["\x7d"] ∧
    ∀ d, shouldLower d = true → emitPiece (ClassPiece.decP d) = [d.ws] :=
  claim7_suppression_and_placement cexClassC7 rfl

end Decorators

namespace Util

/-- Association-list lookup, the embedding of `Map.get` / property access. -/
def lookupS {α : Type} : List (String × α) → String → Option α
  | [], _ => none
  | (k, v) :: rest, key => if k == key then some v else lookupS rest key

/-- Insertion-ordered `Map.set` for string-keyed maps. -/
def mapSetS {α : Type} (m : List (String × α)) (k : String) (v : α) :
    List (String × α) :=
  if m.any (fun p => p.1 == k) then
    m.map (fun p => if p.1 == k then (k, v) else p)
  else m ++ [(k, v)]

/-- Suffix test: embedding of `s.substr(-n) == suf` (with `n = suf.length`)
and of an `extname`-equality comparison. -/
def strEndsWith (suf s : String) : Bool :=
  Decorators.listStartsWith suf.toList.reverse s.toList.reverse

theorem lookup_map_repl_ne {α : Type} (m : List (String × α)) (k key : String) (v : α)
    (h : key ≠ k) :
    lookupS (m.map (fun p => if p.1 == k then (k, v) else p)) key = lookupS m key := by
  have hkk : ¬((k == key) = true) := by
    simp only [beq_iff_eq]
    exact fun hh => h hh.symm
  induction m with
  | nil => rfl
  | cons q rest ih =>
    simp only [List.map_cons]
    split
    · rename_i hq
      have hqkey : ¬((q.1 == key) = true) := by
        simp only [beq_iff_eq] at hq ⊢
        rw [hq]
        exact fun hh => h hh.symm
      simp only [lookupS]
      rw [if_neg hkk, if_neg hqkey]
      exact ih
    · simp only [lookupS]
      exact if_congr Iff.rfl rfl ih

theorem lookup_map_repl_self {α : Type} (m : List (String × α)) (k : String) (v : α)
    (hex : m.any (fun p => p.1 == k) = true) :
    lookupS (m.map (fun p => if p.1 == k then (k, v) else p)) k = some v := by
  induction m with
  | nil => simp at hex
  | cons q rest ih =>
    simp only [List.map_cons]
    split
    · simp [lookupS]
    · rename_i hq
      simp only [lookupS]
      rw [if_neg hq]
      refine ih ?_
      simp only [List.any_cons, Bool.or_eq_true] at hex
      rcases hex with hx | hx
      · exact absurd hx hq
      · exact hx

theorem lookup_append_single_self {α : Type} (m : List (String × α)) (k : String) (v : α)
    (hnone : m.any (fun p => p.1 == k) = false) :
    lookupS (m ++ [(k, v)]) k = some v := by
  induction m with
  | nil => simp [lookupS]
  | cons q rest ih =>
    have hsplit : (q.1 == k) = false ∧ (rest.any fun p => p.1 == k) = false := by
      simpa [List.any_cons] using hnone
    simp only [List.cons_append, lookupS]
    rw [if_neg (by simp [hsplit.1])]
    exact ih hsplit.2

theorem lookup_append_single_ne {α : Type} (m : List (String × α)) (k key : String) (v : α)
    (h : key ≠ k) :
    lookupS (m ++ [(k, v)]) key = lookupS m key := by
  induction m with
  | nil =>
    have hkk : ¬((k == key) = true) := by
      simp only [beq_iff_eq]
      exact fun hh => h hh.symm
    simp [lookupS, hkk]
  | cons q rest ih =>
    simp only [List.cons_append, lookupS]
    exact if_congr Iff.rfl rfl ih

/-- Characterization of lookup after `Map.set`. -/
theorem lookupS_mapSetS {α : Type} (m : List (String × α)) (k key : String) (v : α) :
    lookupS (mapSetS m k v) key = if key = k then some v else lookupS m key := by
  unfold mapSetS
  by_cases hkey : key = k
  · subst hkey
    rw [if_pos rfl]
    split
    · exact lookup_map_repl_self m key v (by assumption)
    · rename_i hany
      exact lookup_append_single_self m key v (by simpa only [Bool.not_eq_true] using hany)
  · rw [if_neg hkey]
    split
    · exact lookup_map_repl_ne m k key v hkey
    · exact lookup_append_single_ne m k key v hkey

end Util

namespace Pipeline0

/-- The per-file result of `tsickle.annotate`: the rewritten source, the
externs text (the empty string standing for an absent/falsy value), and the
diagnostics of the pass. -/
structure AnnotateResult where
  output : String
  externs : String
  diagnostics : List String
deriving Repr, DecidableEq

/-- The environment a run of `toClosureJS` observes from its collaborators:
the pre-emit diagnostics of the first program, the annotate result per input file
(in `fileNames` order), the pre-emit diagnostics of the re-parsed program, the
files produced by `program.emit`, and the emit diagnostics. -/
structure ProgramRun where
  preEmitDiagnostics : List String
  annotateResults : List (String × AnnotateResult)
  reparsedDiagnostics : List String
  emittedFiles : List (String × String)
  emitDiagnostics : List String
deriving Repr, DecidableEq

/-- The value `toClosureJS` returns: either `{errors}` with no output, or
`{jsFiles, externs}`. -/
inductive ClosureResult where
  | errors (ds : List String)
  | ok (jsFiles : List (String × String)) (externs : String)
deriving Repr, DecidableEq

/-- The `for (let fileName of fileNames)` annotate loop: abort with the
diagnostics of that file as soon as one file reports any, else record the output
and concatenate truthy externs. -/
def annotateLoop :
    List (String × AnnotateResult) → List (String × String) → String →
      Except (List String) (List (String × String) × String)
  | [], outs, ex => Except.ok (outs, ex)
  | (f, r) :: rest, outs, ex =>
      if r.diagnostics.length > 0 then Except.error r.diagnostics
      else
        annotateLoop rest (outs ++ [(f, r.output)])
          (if !r.externs.isEmpty then ex ++ r.externs else ex)

/-- Embedding of the original `toClosureJS` pipeline coordinator (the one
that drives `tsickle.annotate` directly).  `convert` is the
`convertCommonJsToGoogModule` collaborator; note its diagnostics are not
collected at all — only its output is used.  The `.map`-file skip uses a
suffix test in place of the `extname`-vs-map check of the source. -/
def toClosureJS (p : ProgramRun) (convert : String → String → String) : ClosureResult :=
  if p.preEmitDiagnostics.length > 0 then ClosureResult.errors p.preEmitDiagnostics
  else
    match annotateLoop p.annotateResults [] "" with
    | Except.error ds => ClosureResult.errors ds
    | Except.ok (_, tsickleExterns) =>
      if p.reparsedDiagnostics.length > 0 then ClosureResult.errors p.reparsedDiagnostics
      else if p.emitDiagnostics.length > 0 then ClosureResult.errors p.emitDiagnostics
      else
        ClosureResult.ok
          (p.emittedFiles.map (fun fe =>
            if !(Util.strEndsWith (".map") fe.1) then (fe.1, convert fe.1 fe.2) else fe))
          tsickleExterns

/-- Whether the coordinator aborted, returning only diagnostics. -/
def isErrors : ClosureResult → Bool
  | ClosureResult.errors _ => true
  | ClosureResult.ok _ _ => false

theorem annotateLoop_error_char (l : List (String × AnnotateResult))
    (outs : List (String × String)) (ex : String) :
    (match annotateLoop l outs ex with
     | Except.error _ => true
     | Except.ok _ => false) =
      l.any (fun fr => decide (0 < fr.2.diagnostics.length)) := by
  induction l generalizing outs ex with
  | nil => rfl
  | cons fr rest ih =>
    rcases fr with ⟨f, r⟩
    simp only [annotateLoop]
    by_cases h : r.diagnostics.length > 0
    · simp [h]
    · rw [if_neg h]
      simp only [List.any_cons]
      rw [ih]
      simp [h]

/-- Claim C3, amended.  The coordinator aborts — returning only diagnostics
and no output — not exclusively on type-check errors: it aborts whenever the
first parse, the annotation pass on some file, the re-parse, or the final
emit reports any diagnostic; and conversion-pass diagnostics are never
collected at all (only the output of the converter is used). -/
theorem claim3_abort_char_amended (p : ProgramRun) (convert : String → String → String) :
    isErrors (toClosureJS p convert) =
      (decide (0 < p.preEmitDiagnostics.length) ||
        p.annotateResults.any (fun fr => decide (0 < fr.2.diagnostics.length)) ||
        decide (0 < p.reparsedDiagnostics.length) ||
        decide (0 < p.emitDiagnostics.length)) := by
  unfold toClosureJS
  by_cases h1 : p.preEmitDiagnostics.length > 0
  · simp [h1, isErrors]
  · rw [if_neg h1]
    have hAnn := annotateLoop_error_char p.annotateResults [] ""
    cases hres : annotateLoop p.annotateResults [] "" with
    | error ds =>
      rw [hres] at hAnn
      simp only [isErrors]
      simp [h1, ← hAnn]
    | ok acc =>
      rw [hres] at hAnn
      rcases acc with ⟨outs, ex⟩
      dsimp only
      by_cases h2 : p.reparsedDiagnostics.length > 0
      · simp [h2, isErrors, h1, ← hAnn]
      · rw [if_neg h2]
        by_cases h3 : p.emitDiagnostics.length > 0
        · simp [h3, isErrors, h1, h2, ← hAnn]
        · rw [if_neg h3]
          simp [isErrors, h1, h2, h3, ← hAnn]

/-- Claim C3, witness for the amended characterization at a run whose only
diagnostics come from emit. -/
theorem claim3_witness :
    isErrors
      (toClosureJS
        { preEmitDiagnostics := []
          annotateResults := [("a.ts", { output := "x", externs := "", diagnostics := [] })]
          reparsedDiagnostics := []
          emittedFiles := [("a.js", "x")]
          emitDiagnostics := ["late emit error"] }
        (fun _ s => s)) = true := by
  rw [claim3_abort_char_amended]
  decide

/-- The concrete run showing claim C3 false as stated: no type-check
(pre-emit) errors anywhere, but the annotation pass on the single file
carries one diagnostic. -/
def cexRunC3 : ProgramRun :=
  { preEmitDiagnostics := []
    annotateResults :=
      [("a.ts", { output := "var x;", externs := "", diagnostics := ["annotate warning"] })]
    reparsedDiagnostics := []
    emittedFiles := []
    emitDiagnostics := [] }

/-- Claim C3, counterexample: with no type-check errors at all, a diagnostic
produced by the annotation pass makes the coordinator return only the
diagnostics and no per-file output, contradicting the claim that such
diagnostics are returned alongside the output. -/
theorem claim3_counterexample :
    cexRunC3.preEmitDiagnostics = [] ∧
    cexRunC3.reparsedDiagnostics = [] ∧
    cexRunC3.emitDiagnostics = [] ∧
    toClosureJS cexRunC3 (fun _ s => s) = ClosureResult.errors ["annotate warning"] := by
  refine ⟨rfl, rfl, rfl, ?_⟩
  rfl

end Pipeline0

namespace DevMode

/-- One input file as `toClosureJSDevMode` observes it: its name, the
computed output name (`tsNameToJsName`), the root-relative output path, the
source and output modification times (`fs.statSync(...).mtime`, with `0`
when the stat of the output throws), the standalone transpilation result
(`ts.transpileModule(...).outputText`), and its diagnostics. -/
structure DevFile where
  tsName : String
  jsName : String
  relPath : String
  tsTime : Nat
  jsTime : Nat
  outputText : String
  diagnostics : List String
deriving Repr, DecidableEq

/-- Embedding of the dot-d-ts suffix guard `substr(-5)` of the source (negated). -/
def isDtsName (s : String) : Bool := Util.strEndsWith (".d.ts") s

/-- The `{jsFiles, externs}` value together with the diagnostics pushed onto
`allDiagnostics`. -/
structure DevResult where
  jsFiles : List (String × String)
  externs : String
  diags : List String
deriving Repr, DecidableEq

/-- One iteration of the `fileNames.forEach` body in `toClosureJSDevMode`:
skip `.d.ts` files; skip files whose source mtime does not exceed the
existing output mtime; otherwise push the transpile diagnostics and store
the converted output under the output name. -/
def devStep (es5 : String → String → String)
    (acc : List (String × String) × List String) (f : DevFile) :
    List (String × String) × List String :=
  if !(isDtsName f.tsName) then
    if f.tsTime > f.jsTime then
      (Util.mapSetS acc.1 f.jsName (es5 f.relPath f.outputText), acc.2 ++ f.diagnostics)
    else acc
  else acc

/-- Embedding of `toClosureJSDevMode`: fold over the input files; externs is
always the empty string.  `es5` is the `processES5` collaborator applied to
the relative path and the transpiled text. -/
def toClosureJSDevMode (es5 : String → String → String) (files : List DevFile) : DevResult :=
  let r := files.foldl (devStep es5) ([], [])
  { jsFiles := r.1, externs := "", diags := r.2 }

/-- A file is processed iff it is not a `.d.ts` and its source is newer than
its on-disk output. -/
def processedB (f : DevFile) : Bool :=
  !(isDtsName f.tsName) && decide (f.jsTime < f.tsTime)

theorem devStep_lookup (es5 : String → String → String)
    (acc : List (String × String) × List String) (f : DevFile) (k : String) :
    Util.lookupS (devStep es5 acc f).1 k =
      (if processedB f = true ∧ f.jsName = k then some (es5 f.relPath f.outputText)
       else Util.lookupS acc.1 k) := by
  unfold devStep processedB
  by_cases h1 : isDtsName f.tsName
  · simp [h1]
  · by_cases h2 : f.tsTime > f.jsTime
    · simp only [h1, Bool.not_false, if_true, h2, if_pos, Bool.false_eq_true,
        Bool.not_eq_true, Bool.true_and]
      rw [Util.lookupS_mapSetS]
      by_cases hk : f.jsName = k
      · rw [if_pos (hk.symm), if_pos ⟨by simp [h1, h2], hk⟩]
      · rw [if_neg (fun hh => hk hh.symm), if_neg (fun hh => hk hh.2)]
    · have : ¬(processedB f = true ∧ f.jsName = k) := by
        intro hh
        apply h2
        have := hh.1
        simp only [processedB, Bool.and_eq_true, decide_eq_true_eq] at this
        exact this.2
      simp only [processedB] at this
      simp [h1, h2, this]

theorem devFold_lookup (es5 : String → String → String) (files : List DevFile)
    (acc : List (String × String) × List String) (k : String) :
    ((Util.lookupS (files.foldl (devStep es5) acc).1 k).isSome = true ↔
      (Util.lookupS acc.1 k).isSome = true ∨
        ∃ f ∈ files, processedB f = true ∧ f.jsName = k) ∧
    (∀ v, Util.lookupS (files.foldl (devStep es5) acc).1 k = some v →
      Util.lookupS acc.1 k = some v ∨
        ∃ f ∈ files, processedB f = true ∧ f.jsName = k ∧
          v = es5 f.relPath f.outputText) := by
  induction files generalizing acc with
  | nil =>
    constructor
    · simp
    · intro v h
      exact Or.inl h
  | cons f rest ih =>
    obtain ⟨ih1, ih2⟩ := ih (devStep es5 acc f)
    constructor
    · rw [List.foldl_cons, ih1, devStep_lookup]
      by_cases hc : processedB f = true ∧ f.jsName = k
      · rw [if_pos hc]
        exact iff_of_true (Or.inl rfl)
          (Or.inr ⟨f, List.mem_cons_self f rest, hc.1, hc.2⟩)
      · rw [if_neg hc]
        constructor
        · rintro (h | ⟨g, hg, hgp⟩)
          · exact Or.inl h
          · exact Or.inr ⟨g, List.mem_cons_of_mem f hg, hgp⟩
        · rintro (h | ⟨g, hg, hgp⟩)
          · exact Or.inl h
          · rcases List.mem_cons.mp hg with rfl | hg2
            · exact absurd hgp hc
            · exact Or.inr ⟨g, hg2, hgp⟩
    · intro v hv
      rw [List.foldl_cons] at hv
      rcases ih2 v hv with h | ⟨g, hg, hg1, hg2, hg3⟩
      · rw [devStep_lookup] at h
        by_cases hc : processedB f = true ∧ f.jsName = k
        · rw [if_pos hc] at h
          exact Or.inr ⟨f, List.mem_cons_self f rest, hc.1, hc.2,
            (Option.some.injEq _ _ ▸ h).symm⟩
        · rw [if_neg hc] at h
          exact Or.inl h
      · exact Or.inr ⟨g, List.mem_cons_of_mem f hg, hg1, hg2, hg3⟩

/-- Claim C4, amended.  In dev mode a supplied non-`.d.ts` file is transpiled
standalone and only the CommonJS-to-goog.module conversion is applied to it
(every stored output is `es5` of the transpiled text of the file), but only when
the source mtime exceeds the on-disk output mtime: an output name appears
in `jsFiles` iff some such fresh non-`.d.ts` input maps to it, so stale files
are skipped — the on-disk outputs act as an mtime-keyed persistent cache,
contrary to the original claim. -/
theorem claim4_devmode_amended (es5 : String → String → String)
    (files : List DevFile) (k : String) :
    ((Util.lookupS (toClosureJSDevMode es5 files).jsFiles k).isSome = true ↔
      ∃ f ∈ files, processedB f = true ∧ f.jsName = k) ∧
    (∀ v, Util.lookupS (toClosureJSDevMode es5 files).jsFiles k = some v →
      ∃ f ∈ files, processedB f = true ∧ f.jsName = k ∧
        v = es5 f.relPath f.outputText) := by
  obtain ⟨h1, h2⟩ := devFold_lookup es5 files ([], []) k
  constructor
  · unfold toClosureJSDevMode
    rw [h1]
    simp [Util.lookupS]
  · intro v hv
    rcases h2 v hv with h | h
    · simp [Util.lookupS] at h
    · exact h

/-- The `processES5` collaborator instantiated as a trivial conversion, for
concrete runs. -/
def idEs5 : String → String → String := fun _ s => s

/-- A non-`.d.ts` input whose on-disk output is newer than its source. -/
def cexStale : DevFile :=
  { tsName := "a.ts", jsName := "a.js", relPath := "a.js", tsTime := 5, jsTime := 10,
    outputText := "var a;", diagnostics := [] }

/-- A non-`.d.ts` input whose source is newer than its (absent) output. -/
def cexFresh : DevFile :=
  { tsName := "b.ts", jsName := "b.js", relPath := "b.js", tsTime := 10, jsTime := 0,
    outputText := "var b;", diagnostics := [] }

/-- Claim C4, counterexample: `cexStale` is a supplied non-`.d.ts` file, yet
after a run in which its on-disk output is newer than its source, it does not
appear in the returned `jsFiles` map — dev mode consulted the on-disk mtimes
as a cache. -/
theorem claim4_counterexample :
    isDtsName cexStale.tsName = false ∧
    Util.lookupS (toClosureJSDevMode idEs5 [cexStale]).jsFiles (cexStale.jsName) = none := by
  refine ⟨by decide, ?_⟩
  rfl

/-- Claim C4, witness: a fresh file does appear, via the amended theorem. -/
theorem claim4_witness :
    (Util.lookupS (toClosureJSDevMode idEs5 [cexFresh]).jsFiles ("b.js")).isSome = true :=
  (claim4_devmode_amended idEs5 [cexFresh] ("b.js")).1.mpr
    ⟨cexFresh, List.mem_cons_self cexFresh [], by decide, rfl⟩

end DevMode

namespace HostUtil

/-- A source file as `getSourceFile` produces it: the resolved path and the
text it was created from.  (The `languageVersion` argument and the `onError`
callback play no role in the overlay decision and are elided.) -/
structure SourceFileM where
  fileName : String
  text : String
deriving Repr, DecidableEq

/-- Embedding of `ts.createSourceFile(path, sourceText, languageVersion)`. -/
def createSourceFileM (path sourceText : String) : SourceFileM :=
  { fileName := path, text := sourceText }

/-- Embedding of the member `getSourceFile` of `createSourceReplacingCompilerHost`: look
the resolved path up in the overlay map; the overlay is used only when the
text is truthy (`if (sourceText)` — both a missing entry and the empty
string fall through to the delegate host). -/
def getSourceFile (substituteSource : List (String × String))
    (delegate : String → Option SourceFileM) (resolvePath : String → String)
    (fileName : String) : Option SourceFileM :=
  let path := resolvePath fileName
  match Util.lookupS substituteSource path with
  | some sourceText =>
      if !sourceText.isEmpty then some (createSourceFileM path sourceText)
      else delegate path
  | none => delegate path

/-- Claim C10: an overlay entry holding the empty string is ignored — the
file of the delegate host is returned — while a non-empty overlay entry replaces
the file with one built from the overlay text; with no entry the delegate is
consulted. -/
theorem claim10_empty_overlay (substituteSource : List (String × String))
    (delegate : String → Option SourceFileM) (resolvePath : String → String)
    (fileName : String) :
    (Util.lookupS substituteSource (resolvePath fileName) = some ("") →
      getSourceFile substituteSource delegate resolvePath fileName =
        delegate (resolvePath fileName)) ∧
    (∀ t, Util.lookupS substituteSource (resolvePath fileName) = some t → t ≠ "" →
      getSourceFile substituteSource delegate resolvePath fileName =
        some (createSourceFileM (resolvePath fileName) t)) ∧
    (Util.lookupS substituteSource (resolvePath fileName) = none →
      getSourceFile substituteSource delegate resolvePath fileName =
        delegate (resolvePath fileName)) := by
  refine ⟨?_, ?_, ?_⟩
  · intro h
    unfold getSourceFile
    dsimp only
    rw [h]
    rfl
  · intro t h ht
    unfold getSourceFile
    dsimp only
    rw [h]
    have hne : (!t.isEmpty) = true := by
      cases hemp : t.isEmpty with
      | false => rfl
      | true => exact absurd ((String.isEmpty_iff t).mp hemp) ht
    simp [hne]
  · intro h
    unfold getSourceFile
    dsimp only
    rw [h]

/-- The overlay and delegate used for the C10 witness: one empty-string
entry, one real entry, and a delegate returning a marker file. -/
def cexSub : List (String × String) := [("a.ts", ""), ("b.ts", "let x;")]

def cexDelegate : String → Option SourceFileM :=
  fun p => some { fileName := p, text := "original" }

/-- Claim C10, witness: the empty-string overlay for `a.ts` is ignored and
the file from the delegate comes back; the non-empty overlay for `b.ts` replaces
the file. -/
theorem claim10_witness :
    getSourceFile cexSub cexDelegate (fun s => s) ("a.ts") = cexDelegate ("a.ts") ∧
    getSourceFile cexSub cexDelegate (fun s => s) ("b.ts") =
      some (createSourceFileM ("b.ts") ("let x;")) :=
  ⟨(claim10_empty_overlay cexSub cexDelegate (fun s => s) ("a.ts")).1 rfl,
   (claim10_empty_overlay cexSub cexDelegate (fun s => s) ("b.ts")).2.1
     ("let x;") rfl (by decide)⟩

end HostUtil

namespace FinalizeMain

/-- The `@fileoverview @suppress` block `main` prepends, exactly as in the
source. -/
def suppressComment : String :=
  "/** @fileoverview @suppress \x7baccessControls,ambiguousFunctionDecl," ++
  "checkDebuggerStatement,checkRegExp,checkTypes,checkVars," ++
  "closureDepMethodUsageChecks,constantProperty,const,deprecated,duplicate," ++
  "es5Strict,externsValidation,extraRequire,fileoverviewTags,globalThis," ++
  "invalidCasts,misplacedTypeAnnotation,missingProperties,missingProvide," ++
  "missingRequire,missingReturn,newCheckTypes,nonStandardJsDocs," ++
  "reportUnknownTypes,strictModuleDepCheck,suspiciousCode,undefinedNames," ++
  "undefinedVars,unknownDefines,uselessCode,visibility\x7d */\n"

/-- Embedding of the per-file post-processing in `main`: the suppress block
is prepended iff the run is untyped or only signatures are typed. -/
def finalizeSrc (isTyped isTypedSignatures : Bool) (src : String) : String :=
  if !isTyped || isTypedSignatures then suppressComment ++ src else src

/-- The `untyped` option handed to the tsickle compiler host
(`untyped: !settings.isTyped`). -/
def optionsUntyped (isTyped : Bool) : Bool := !isTyped

/-- The `untypedFunctionBodies` option handed to the tsickle compiler host
(`untypedFunctionBodies: settings.isTypedSignatures`). -/
def optionsUntypedFunctionBodies (isTypedSignatures : Bool) : Bool := isTypedSignatures

/-- Claim C9: the emitted file is prefixed with the full `@suppress` taxonomy
block exactly when the run is in untyped mode or has untyped function
bodies; in fully typed mode the source is returned unchanged (and is never
accidentally equal to a prefixed text, since the block is non-empty). -/
theorem claim9_suppress_iff (isTyped isTypedSignatures : Bool) (src : String) :
    finalizeSrc isTyped isTypedSignatures src = suppressComment ++ src ↔
      (optionsUntyped isTyped || optionsUntypedFunctionBodies isTypedSignatures) = true := by
  unfold finalizeSrc optionsUntyped optionsUntypedFunctionBodies
  by_cases h : (!isTyped || isTypedSignatures) = true
  · simp [h]
  · rw [if_neg h]
    constructor
    · intro hEq
      exfalso
      have hlen := congrArg String.length hEq
      rw [String.length_append] at hlen
      have hpos : 0 < suppressComment.length := by
        set_option maxRecDepth 8192 in decide
      omega
    · intro hb
      exact absurd hb h

/-- Claim C9, witness: in untyped mode the block is prepended; in fully
typed mode (typed, with typed function bodies) it is not. -/
theorem claim9_witness :
    finalizeSrc false false ("var x;") = suppressComment ++ "var x;" ∧
    ¬(finalizeSrc true false ("var x;") = suppressComment ++ "var x;") :=
  ⟨(claim9_suppress_iff false false ("var x;")).mpr (by decide),
   fun h => by
     have h2 := (claim9_suppress_iff true false ("var x;")).mp h
     simp [optionsUntyped, optionsUntypedFunctionBodies] at h2⟩

end FinalizeMain

namespace TypeTrans

/-- Modelled from the spec: the type language fragment the recursive-typedef
behaviour needs — primitives, `any`, alias references, and record types.
(The type translator itself is not among the provided sources; this model
follows the translation table of the spec and cycle rule.) -/
inductive TsType where
  | numT
  | strT
  | boolT
  | anyT
  | refT (name : String)
  | recordT (fields : List (String × TsType))

/-- The number of alias-environment entries not yet in the
currently-translating set: the termination measure for unfolding. -/
def unseen (env : List (String × TsType)) (seen : List String) : Nat :=
  (env.filter (fun p => !(seen.contains p.1))).length

theorem unseen_mono (env : List (String × TsType)) (n : String) (seen : List String) :
    unseen env (n :: seen) ≤ unseen env seen := by
  unfold unseen
  refine List.Sublist.length_le (List.monotone_filter_right env ?_)
  intro p hp
  simp only [List.contains_cons, Bool.not_eq_true', Bool.or_eq_false_iff] at hp ⊢
  exact hp.2

theorem unseen_lt (env : List (String × TsType)) (n : String) (seen : List String)
    (b : TsType) (hlook : Util.lookupS env n = some b)
    (hn : seen.contains n = false) :
    unseen env (n :: seen) < unseen env seen := by
  induction env with
  | nil => simp [Util.lookupS] at hlook
  | cons q rest ih =>
    rcases q with ⟨k, v⟩
    simp only [Util.lookupS] at hlook
    unfold unseen
    by_cases hk : k = n
    · subst hk
      rw [List.filter_cons, List.filter_cons]
      have hold : (!(seen.contains (k, v).1)) = true := by
        show (!(seen.contains k)) = true
        rw [hn]
        rfl
      have hnew : (!((k :: seen).contains (k, v).1)) = false := by
        show (!((k :: seen).contains k)) = false
        simp
      rw [hold, hnew]
      simp only [if_true, Bool.false_eq_true, if_false, List.length_cons]
      exact Nat.lt_succ_of_le (unseen_mono rest k seen)
    · have hlook2 : Util.lookupS rest n = some b := by
        rwa [if_neg (by simpa using hk)] at hlook
      rw [List.filter_cons, List.filter_cons]
      have hsame2 : ((n :: seen).contains (k, v).1) = seen.contains (k, v).1 := by
        show ((n :: seen).contains k) = seen.contains k
        rw [List.contains_cons, show (k == n) = false from by simpa using hk]
        simp
      rw [hsame2]
      cases hc : seen.contains (k, v).1 with
      | true =>
        simp only [hc, Bool.not_true, Bool.false_eq_true, if_false]
        exact ih hlook2
      | false =>
        simp only [hc, Bool.not_false, if_true, List.length_cons]
        exact Nat.succ_lt_succ (ih hlook2)

mutual

/-- Modelled from the spec: translate a type to a Closure type expression.
Primitives map per the table of the spec and `any` maps to `?`; an alias
reference already in the currently-translating set yields `?` (the cycle
rule), an alias not yet seen is unfolded once more with itself added to
the set, an unresolved reference degrades to `?`; records translate
field-wise.  Totality of this definition (by well-founded recursion on the
unseen-alias count and the type size) is the termination guarantee the
spec asserts. -/
def translateType (env : List (String × TsType)) (seen : List String) :
    TsType → String
  | TsType.numT => "number"
  | TsType.strT => "string"
  | TsType.boolT => "boolean"
  | TsType.anyT => "?"
  | TsType.refT n =>
      if hseen : seen.contains n then "?"
      else
        match hlook : Util.lookupS env n with
        | some body => translateType env (n :: seen) body
        | none => "?"
  | TsType.recordT fields => "\x7b" ++ translateFields env seen fields ++ "\x7d"
termination_by t => (unseen env seen, sizeOf t)
decreasing_by
  · apply Prod.Lex.left
    exact unseen_lt env n seen body hlook (by simpa using hseen)
  · apply Prod.Lex.right
    simp

/-- Modelled from the spec: render record fields as `k: T` joined by
commas. -/
def translateFields (env : List (String × TsType)) (seen : List String) :
    List (String × TsType) → String
  | [] => ""
  | [(k, t)] => k ++ ": " ++ translateType env seen t
  | (k, t) :: rest =>
      k ++ ": " ++ translateType env seen t ++ ", " ++ translateFields env seen rest
termination_by fs => (unseen env seen, sizeOf fs)
decreasing_by
  all_goals apply Prod.Lex.right
  all_goals simp
  all_goals omega

end

/-- Modelled from the spec: the `@typedef` comment the annotator emits for a
type alias; the alias is translated as a reference so that its own symbol is
in the currently-translating set while its definition is unfolded. -/
def emitTypedef (env : List (String × TsType)) (n : String) : String :=
  "/** @typedef \x7b" ++ translateType env [] (TsType.refT n) ++ "\x7d */"

/-- The environment of the recursive example of the spec
`type Recursive = \x7bvalue: number, next: Recursive\x7d`. -/
def recEnv : List (String × TsType) :=
  [("Recursive", TsType.recordT [("value", TsType.numT), ("next", TsType.refT ("Recursive"))])]

/-- Claim C8: the translator is total (it is defined by well-founded
recursion, which is the termination guarantee), an alias reference not yet
being translated unfolds its definition exactly once more with the alias
added to the currently-translating set, a re-entered reference is replaced
by `?`, and on the example of the spec the emitted typedef is exactly the golden
output `/** @typedef {{value: number, next: ?}} */`. -/
theorem claim8_recursive_typedef :
    (∀ (env : List (String × TsType)) (n : String) (body : TsType) (seen : List String),
      seen.contains n = false → Util.lookupS env n = some body →
        translateType env seen (TsType.refT n) = translateType env (n :: seen) body) ∧
    (∀ (env : List (String × TsType)) (seen : List String) (n : String),
      seen.contains n = true → translateType env seen (TsType.refT n) = "?") ∧
    emitTypedef recEnv ("Recursive") =
      "/** @typedef \x7b\x7bvalue: number, next: ?\x7d\x7d */" := by
  refine ⟨?_, ?_, ?_⟩
  · intro env n body seen h1 h2
    rw [translateType]
    rw [dif_neg (by simpa using h1)]
    split
    · rename_i b hb
      rw [h2] at hb
      rw [Option.some.injEq] at hb
      rw [hb]
    · rename_i hb
      rw [h2] at hb
      exact absurd hb (by simp)
  · intro env seen n h
    rw [translateType]
    rw [dif_pos (by simpa using h)]
  · simp [emitTypedef, translateType, translateFields, Util.lookupS, recEnv]

/-- Claim C8, witness: the unfold-once and cycle rules applied at the
concrete recursive alias. -/
theorem claim8_witness :
    translateType recEnv [] (TsType.refT ("Recursive")) =
      translateType recEnv ["Recursive"]
        (TsType.recordT [("value", TsType.numT), ("next", TsType.refT ("Recursive"))]) ∧
    translateType recEnv ["Recursive"] (TsType.refT ("Recursive")) = "?" :=
  ⟨claim8_recursive_typedef.1 recEnv ("Recursive") _ [] rfl rfl,
   claim8_recursive_typedef.2.1 recEnv ["Recursive"] ("Recursive") rfl⟩

end TypeTrans
